import Mathlib

/-!
Verification of the Section-Aware RAG backend (services/rag_service.py and
services/upload_service.py) against its natural-language specification.

The Python services are shallowly embedded: pure helpers become Lean
functions over `List Char` / `String`; every call to a backing model or to
the vector index is passed in as an explicit `Except`-valued oracle, so an
exception raised by a backing call is an `Except.error` value.
-/

namespace RAGService

/-- One entry of the judge's parsed JSON array: `{filename, score}`.
JSON scores are modelled as integers. -/
structure Entry where
  filename : String
  score : Int
deriving DecidableEq

/-- One retrieved summary candidate (a `type = "summary"` record):
its `source` metadata and its summary text. -/
structure Candidate where
  source : String
  summary : String
deriving DecidableEq

/-- Stable insertion of an entry into a list sorted by descending score.
An incoming element is placed before the first element whose score is
less than or equal to its own, which is exactly the tie behaviour of a
stable descending sort. -/
def insertDesc (e : Entry) : List Entry → List Entry
  | [] => [e]
  | x :: xs => if x.score ≤ e.score then e :: x :: xs else x :: insertDesc e xs

/-- Model of `scored_docs.sort(key=lambda x: x["score"], reverse=True)`:
Python's list sort is stable, and with `reverse=True` entries of equal
score keep their original relative order.  A stable descending sort is
uniquely determined by its output being a descending permutation that
preserves the relative order of equal keys, which is proved below, so
this insertion sort and CPython's timsort agree on every input. -/
def pySortDesc : List Entry → List Entry
  | [] => []
  | x :: xs => insertDesc x (pySortDesc xs)

/-- `RAGService.get_filtered_documents` (rag_service.py lines 38-72),
after the retrieval and judge calls.  `summary_candidates` is the ordered
retrieval result; `parsed` is the outcome of parsing the judge response
(`json.loads` plus the `x["score"]` / `d["filename"]` accesses inside the
`try` block): `some scored` when the content parses as an array of
`{filename, score}` entries, `none` when any of that raises.  On success:
sort descending by score (stable), keep scores ≥ 50, take the top 3,
return the filenames; on failure: the first 3 candidates' sources. -/
def get_filtered_documents (summary_candidates : List Candidate)
    (parsed : Option (List Entry)) : List String :=
  match parsed with
  | some scored =>
      (((pySortDesc scored).filter (fun d => decide (50 ≤ d.score))).take 3).map
        Entry.filename
  | none => (summary_candidates.take 3).map Candidate.source

/-- One page hit returned by the page retriever, with the metadata fields
`extract_sources` reads. -/
structure PageHit where
  source : String
  sectionName : String
  page_number : Nat
deriving DecidableEq

/-- One record of the `sources` list of a query result. -/
structure SourceRec where
  source : String
  sectionName : String
  page_number : Nat
deriving DecidableEq

/-- The loop of `RAGService.extract_sources`: `seen` is the set of
`(source, page_number)` keys already emitted. -/
def extractSourcesGo (seen : List (String × Nat)) : List PageHit → List SourceRec
  | [] => []
  | d :: ds =>
      if (d.source, d.page_number) ∈ seen then extractSourcesGo seen ds
      else ⟨d.source, d.sectionName, d.page_number⟩ ::
        extractSourcesGo ((d.source, d.page_number) :: seen) ds

/-- `RAGService.extract_sources` (rag_service.py lines 104-118):
deduplicate page hits by `(source, page_number)`, keeping first-seen
order. -/
def extract_sources (page_hits : List PageHit) : List SourceRec :=
  extractSourcesGo [] page_hits

/-- The result shape of `RAGService.query`. -/
structure QueryResult where
  answer : String
  sources : List SourceRec
  filtered_documents : List String
deriving DecidableEq

/-- `RAGService.query` (rag_service.py lines 119-153).  The three stages
backed by remote calls are oracles: `filterO` is the whole
`get_filtered_documents` call (retrieval + judge), `retrieveO` is
`retrieve_pages`, `generateO` is `generate_answer`; an `Except.error e`
is a raised exception whose `str(e)` is `e`.  `extract_sources` is the
pure local function.  The `try/except` wrapping every stage becomes the
error branches, each producing the degraded response. -/
def query (filterO : Except String (List String))
    (retrieveO : List String → Except String (List PageHit))
    (generateO : List PageHit → Except String String) : QueryResult :=
  match filterO with
  | .error e => ⟨"An error occurred: " ++ e, [], []⟩
  | .ok filtered_docs =>
    match retrieveO filtered_docs with
    | .error e => ⟨"An error occurred: " ++ e, [], []⟩
    | .ok page_hits =>
      match generateO page_hits with
      | .error e => ⟨"An error occurred: " ++ e, [], []⟩
      | .ok answer => ⟨answer, extract_sources page_hits, filtered_docs⟩

end RAGService

namespace UploadService

/-- The six ASCII whitespace characters recognised by Python's `str.strip`
and by `\s` in the `re` module (the further Unicode whitespace code
points play no role in this development). -/
def pyIsSpace (c : Char) : Bool :=
  c == ' ' || c == '\t' || c == '\n' || c == '\r' ||
    c == Char.ofNat 11 || c == Char.ofNat 12

/-- The apostrophe character, written by code point. -/
def squote : Char := Char.ofNat 39

/-- Python `str.strip()`: drop whitespace from both ends. -/
def pyStrip (l : List Char) : List Char :=
  ((l.dropWhile pyIsSpace).reverse.dropWhile pyIsSpace).reverse

/-- Worker for `splitlines`: `cur` is the reversed current line.  Line
terminators are `\n`, `\r` and `\r\n`; as in Python, a terminator at the
very end of the string does not open a final empty line. -/
def splitlinesGo (cur : List Char) : List Char → List (List Char)
  | [] => [cur.reverse]
  | ['\r', '\n'] => [cur.reverse]
  | '\r' :: '\n' :: t => cur.reverse :: splitlinesGo [] t
  | ['\r'] => [cur.reverse]
  | '\r' :: t => cur.reverse :: splitlinesGo [] t
  | ['\n'] => [cur.reverse]
  | '\n' :: t => cur.reverse :: splitlinesGo [] t
  | c :: t => splitlinesGo (c :: cur) t

/-- Python `str.splitlines()` (on `\n` / `\r` / `\r\n` terminators);
the empty string yields no lines. -/
def splitlines (l : List Char) : List (List Char) :=
  if l.isEmpty then [] else splitlinesGo [] l

/-- `UploadService.SECTION_RE = re.compile(r"^#{1,3}\s+(.+)$")` applied
with `re.match` to an already-stripped line: the line must start with a
run of 1-3 `#` characters (a longer run makes every 1-3 split fail, since
the character after the shorter run is another `#`, not whitespace),
followed by at least one whitespace character, followed by at least one
further character; the captured group is everything after the maximal
whitespace run, exactly what the greedy `\s+(.+)` captures. -/
def headingCapture (l : List Char) : Option (List Char) :=
  let hashes := l.takeWhile (fun c => c == '#')
  let rest := l.dropWhile (fun c => c == '#')
  let ws := rest.takeWhile pyIsSpace
  let body := rest.dropWhile pyIsSpace
  if 1 ≤ hashes.length ∧ hashes.length ≤ 3 ∧ ws ≠ [] ∧ body ≠ [] then
    some body
  else none

/-- One section record produced by `split_into_sections`: the langchain
`Document` with its metadata, keeping the buffered lines; the stored
`page_content` is `f"{current_section}\n" + "\n".join(buffer)`, see
`page_content` below. -/
structure SectionDoc where
  source : List Char
  sectionName : List Char
  page_number : Nat
  textLines : List (List Char)
deriving DecidableEq

/-- `"\n".join(...)`. -/
def joinLines : List (List Char) → List Char
  | [] => []
  | [l] => l
  | l :: ls => l ++ '\n' :: joinLines ls

/-- The `page_content` stored for a section record:
`f"{current_section}\n" + "\n".join(buffer)`. -/
def page_content (d : SectionDoc) : List Char :=
  d.sectionName ++ '\n' :: joinLines d.textLines

/-- The loop state of `split_into_sections` within one page:
`current_section` and `buffer`, plus the `docs` accumulator. -/
structure SplitState where
  cur : Option (List Char)
  buf : List (List Char)
  docs : List SectionDoc
deriving DecidableEq

/-- The body of the inner `for line in page.splitlines()` loop of
`UploadService.split_into_sections` (upload_service.py lines 89-112):
strip the line; on a heading match flush the previous buffer when a
section is open and the buffer is non-empty (only then is the buffer
cleared), then open the captured section; otherwise append the stripped
line to the buffer. -/
def processLine (src : List Char) (n : Nat) (st : SplitState)
    (rawLine : List Char) : SplitState :=
  let line := pyStrip rawLine
  match headingCapture line with
  | some h =>
    match st.cur with
    | some s =>
      if st.buf.isEmpty then ⟨some h, st.buf, st.docs⟩
      else ⟨some h, [], st.docs ++ [⟨src, s, n, st.buf⟩]⟩
    | none => ⟨some h, st.buf, st.docs⟩
  | none => ⟨st.cur, st.buf ++ [line], st.docs⟩

/-- One iteration of the outer `for page_no, page in enumerate(...)` loop
(upload_service.py lines 85-126): run the line loop from a fresh state,
then flush the still-open section at end of page. -/
def processPage (src : List Char) (n : Nat) (docs : List SectionDoc)
    (page : List Char) : List SectionDoc :=
  let st := (splitlines page).foldl (processLine src n) ⟨none, [], docs⟩
  match st.cur with
  | some s => if st.buf.isEmpty then st.docs else st.docs ++ [⟨src, s, n, st.buf⟩]
  | none => st.docs

/-- The outer page loop, pages numbered from `n`. -/
def splitGo (src : List Char) : Nat → List (List Char) → List SectionDoc →
    List SectionDoc
  | _, [], docs => docs
  | n, p :: ps, docs => splitGo src (n + 1) ps (processPage src n docs p)

/-- `UploadService.split_into_sections` (upload_service.py lines 82-127),
pages numbered from 1. -/
def split_into_sections (normalized_pages : List (List Char))
    (file_name : List Char) : List SectionDoc :=
  splitGo file_name 1 normalized_pages []

/-- Per-page section extraction: each page processed independently from
an empty state.  `split_into_sections` provably coincides with this,
which is the sense in which no section spans a page boundary. -/
def sectionsOfPages (src : List Char) : Nat → List (List Char) →
    List SectionDoc
  | _, [] => []
  | n, p :: ps => processPage src n [] p ++ sectionsOfPages src (n + 1) ps

end UploadService

namespace UploadService

/-- The heading-line shape asserted by the specification, read literally:
1-3 leading `#` characters, then one space character, then non-empty
text. -/
def claimHeadingForm (l : List Char) : Prop :=
  ∃ k t, 1 ≤ k ∧ k ≤ 3 ∧ t ≠ [] ∧ l = List.replicate k '#' ++ ' ' :: t

/-- The heading-line shape the code actually recognises: 1-3 leading `#`
characters, then a non-empty whitespace run, then text starting with a
non-whitespace character. -/
def headingForm (l : List Char) : Prop :=
  ∃ k ws c t, 1 ≤ k ∧ k ≤ 3 ∧ ws ≠ [] ∧ (∀ x ∈ ws, pyIsSpace x = true) ∧
    pyIsSpace c = false ∧ l = List.replicate k '#' ++ ws ++ c :: t

/-- The page-break marker `"<!-- PAGE BREAK -->"` that
`process_markdown_file` splits the cleaned text on. -/
def pageBreakMarker : List Char := "<!-- PAGE BREAK -->".toList

/-- Python `str.split(sep)` for a non-empty separator, by a left-to-right
scan cutting at each leftmost occurrence; `fuel` bounds the recursion and
is never exhausted when it starts at the length of the input, since every
step consumes at least one character. -/
def splitOnSepFuel (sep : List Char) : Nat → List Char → List Char →
    List (List Char)
  | 0, cur, l => [cur.reverse ++ l]
  | _ + 1, cur, [] => [cur.reverse]
  | fuel + 1, cur, ch :: t =>
    if sep.isPrefixOf (ch :: t) then
      cur.reverse :: splitOnSepFuel sep fuel [] (t.drop (sep.length - 1))
    else splitOnSepFuel sep fuel (ch :: cur) t

/-- Python `str.split(sep)` for a non-empty `sep`. -/
def splitOnSep (sep l : List Char) : List (List Char) :=
  splitOnSepFuel sep l.length [] l

/-- The number of non-overlapping occurrences of `sep`, counted by the
same left-to-right scan `str.split` cuts at (for a separator with no
non-trivial border, such as the page-break marker, this is the plain
substring-occurrence count). -/
def countSepFuel (sep : List Char) : Nat → List Char → Nat
  | 0, _ => 0
  | _ + 1, [] => 0
  | fuel + 1, ch :: t =>
    if sep.isPrefixOf (ch :: t) then
      countSepFuel sep fuel (t.drop (sep.length - 1)) + 1
    else countSepFuel sep fuel t

/-- Occurrence count of `sep` in `l` (non-overlapping, leftmost-first). -/
def countSep (sep l : List Char) : Nat :=
  countSepFuel sep l.length l

/-- The literal prefix of the anchor pattern `<a id='`. -/
def anchorOpen : List Char := "<a id=".toList ++ [squote]

/-- The literal suffix of the anchor pattern `'></a>`. -/
def anchorClose : List Char := squote :: "></a>".toList

/-- Length of the match of `re.compile(r"<a id='[^']+'></a>")` at the
start of `l`, if any.  The greedy `[^']+` takes the maximal quote-free
run; a shorter run cannot match, because the character after it would be
a non-quote where the pattern requires the closing quote, so the regex
matches here exactly when the maximal run (non-empty) is followed by
`'></a>`. -/
def anchorMatchLen (l : List Char) : Option Nat :=
  if anchorOpen.isPrefixOf l then
    let rest := l.drop anchorOpen.length
    let run := rest.takeWhile (fun ch => ch != squote)
    if 1 ≤ run.length ∧ anchorClose.isPrefixOf (rest.drop run.length) then
      some (anchorOpen.length + run.length + anchorClose.length)
    else none
  else none

/-- `re.sub(r"<a id='[^']+'></a>", "", text)`: scan left to right,
deleting each leftmost match (every match is at least 14 characters, so
fuel equal to the input length is never exhausted). -/
def reSubAnchorFuel : Nat → List Char → List Char
  | 0, l => l
  | _ + 1, [] => []
  | fuel + 1, ch :: t =>
    match anchorMatchLen (ch :: t) with
    | some n => reSubAnchorFuel fuel ((ch :: t).drop n)
    | none => ch :: reSubAnchorFuel fuel t

/-- `UploadService.clean_markdown_text` (upload_service.py lines 63-66):
remove anchor tags, then strip surrounding whitespace. -/
def clean_markdown_text (text : List Char) : List Char :=
  pyStrip (reSubAnchorFuel text.length text)

/-- A raw input in which the only occurrence of the page-break marker
lies inside an anchor tag's id. -/
def anchorWrappedMarker : List Char := anchorOpen ++ pageBreakMarker ++ anchorClose

end UploadService

namespace UploadService

/-- Modelled from the spec: the Chunker is langchain's
`RecursiveCharacterTextSplitter(chunk_size=1000, chunk_overlap=100)`
(`UploadService.split_documents`, upload_service.py lines 193-199), whose
own code is not part of this repository.  The specification describes it
as "deterministic fixed-size splitting: size 1000, overlap 100, operating
over each Section's full text independently", with overlap "measured in
the same unit as size (character count)": a window of 1000 characters
advancing by 900, keeping the final shorter remainder as its own chunk. -/
def chunkText (l : List Char) : List (List Char) :=
  if _h : l.length ≤ 1000 then [l]
  else l.take 1000 :: chunkText (l.drop 900)
termination_by l.length
decreasing_by
  simp only [List.length_drop]
  omega

/-- Concatenation of the chunks after index 0, each with its leading
100-character overlap removed. -/
def tailJoin (cs : List (List Char)) : List Char :=
  cs.foldr (fun c acc => c.drop 100 ++ acc) []

/-- Reassembly of a chunk list: the first chunk in full, every later
chunk minus its 100-character overlap.  `reconstruct (chunkText l) = l`
is the sense in which no trailing content is dropped. -/
def reconstruct : List (List Char) → List Char
  | [] => []
  | c :: cs => c ++ tailJoin cs

/-- A document as uploaded to the vector store: `page_content` plus the
metadata attached by `create_final_documents` / the summary record. -/
structure FinalDoc where
  page_content : List Char
  source : List Char
  sectionName : List Char
  page_number : Nat
  publication_year : Nat
  keywords : List Char
  type : String
deriving DecidableEq

/-- `UploadService.create_final_documents` (upload_service.py lines
162-192): attach document-level metadata and `type = "page"` to every
section record. -/
def create_final_documents (docs : List SectionDoc) (file_name : List Char)
    (publication_year : Nat) (keywords : List Char) : List FinalDoc :=
  docs.map fun d =>
    ⟨page_content d, file_name, d.sectionName, d.page_number,
      publication_year, keywords, "page"⟩

/-- `UploadService.split_documents`: chunk each final document's
`page_content` (spec-modelled `chunkText`), copying its metadata onto
every chunk. -/
def split_documents (final_docs : List FinalDoc) : List FinalDoc :=
  final_docs.flatMap fun d =>
    (chunkText d.page_content).map fun c => { d with page_content := c }

/-- The summary document appended after chunking (upload_service.py
lines 258-270): `type = "summary"`, `page_number = 0`, empty section. -/
def summaryRecord (document_summary file_name : List Char)
    (publication_year : Nat) (keywords : List Char) : FinalDoc :=
  ⟨document_summary, file_name, [], 0, publication_year, keywords, "summary"⟩

/-- The digit-filter of `extract_publication_year`:
`int("".join(filter(str.isdigit, text)))`, or 0 when no digit occurs. -/
def digitsToNat (l : List Char) : Nat :=
  (l.filter Char.isDigit).foldl (fun a c => a * 10 + (c.toNat - 48)) 0

/-- The backing-service calls of the ingestion pipeline, one oracle per
remote call; `Except.error e` is a raised exception with message `e`.
`probe` is the `similarity_search` inside `source_exists`, `uploadO` is
`vector_store.add_documents`. -/
structure IngestOracles where
  probe : Except (List Char) (List Unit)
  normalizeO : List Char → Except (List Char) (List Char)
  pageSummaryO : List Char → Except (List Char) (List Char)
  docSummaryO : List Char → Except (List Char) (List Char)
  yearO : List Char → Except (List Char) (List Char)
  keywordsO : List Char → Except (List Char) (List Char)
  uploadO : List FinalDoc → Except (List Char) (List (List Char))

/-- Sequential effectful map: a Python `for` loop of backing calls, where
the first raised exception aborts the loop. -/
def mapE {α β : Type} (f : α → Except (List Char) β) :
    List α → Except (List Char) (List β)
  | [] => .ok []
  | a :: as =>
    match f a with
    | .error e => .error e
    | .ok b =>
      match mapE f as with
      | .error e => .error e
      | .ok bs => .ok (b :: bs)

/-- `UploadService.source_exists` (upload_service.py lines 50-61): `true`
iff the probe search completed and returned a non-empty result; its own
`try/except` turns any probe exception into `false`. -/
def source_exists (probe : Except (List Char) (List Unit)) : Bool :=
  match probe with
  | .ok results => !results.isEmpty
  | .error _ => false

/-- `UploadService.normalize_pages`: one model call per page. -/
def normalize_pages (O : IngestOracles) (pages : List (List Char)) :
    Except (List Char) (List (List Char)) :=
  mapE O.normalizeO pages

/-- `UploadService.generate_page_summaries`: one model call per section
record, each response stripped. -/
def generate_page_summaries (O : IngestOracles) (docs : List SectionDoc) :
    Except (List Char) (List (List Char)) :=
  mapE (fun d => (O.pageSummaryO (page_content d)).map pyStrip) docs

/-- `UploadService.generate_document_summary`: fold the page summaries
(joined by newlines) into one stripped document summary. -/
def generate_document_summary (O : IngestOracles)
    (page_summaries : List (List Char)) : Except (List Char) (List Char) :=
  (O.docSummaryO (joinLines page_summaries)).map pyStrip

/-- `UploadService.extract_publication_year`: model call, then the local
digit-filter with default 0. -/
def extract_publication_year (O : IngestOracles)
    (document_summary : List Char) : Except (List Char) Nat :=
  (O.yearO document_summary).map digitsToNat

/-- `UploadService.extract_keywords`: model call, response stripped. -/
def extract_keywords (O : IngestOracles) (document_summary : List Char) :
    Except (List Char) (List Char) :=
  (O.keywordsO document_summary).map pyStrip

/-- The `details` object of a successful ingestion result. -/
structure IngestDetails where
  pages_processed : Nat
  sections_created : Nat
  chunks_created : Nat
  document_ids_count : Nat
  publication_year : Nat
  keywords : List Char
deriving DecidableEq

/-- The result dictionary of `process_markdown_file`. -/
structure ProcessResult where
  status : String
  message : List Char
  details : Option IngestDetails
deriving DecidableEq

/-- The `except` branch of `process_markdown_file`. -/
def errorResult (e : List Char) : ProcessResult :=
  ⟨"error", "Error processing file: ".toList ++ e, none⟩

/-- The message of the already-exists rejection:
`f"Document '{file_name}' already exists in the database."`. -/
def alreadyExistsMessage (file_name : List Char) : List Char :=
  "Document ".toList ++ squote :: file_name ++
    squote :: " already exists in the database.".toList

/-- The body of `process_markdown_file` after the existence check
(upload_service.py lines 229-293, steps 1-11): the second component of
the result is the log of batches passed to `upload_to_vector_store` (the
single upload call happens at the end, on the chunks plus the appended
summary record).  Any stage's exception short-circuits to the `except`
branch. -/
def ingest_pipeline (O : IngestOracles) (file_content file_name : List Char) :
    ProcessResult × List (List FinalDoc) :=
  match normalize_pages O
      (splitOnSep pageBreakMarker (clean_markdown_text file_content)) with
  | .error e => (errorResult e, [])
  | .ok normalized_pages =>
    match generate_page_summaries O
        (split_into_sections normalized_pages file_name) with
    | .error e => (errorResult e, [])
    | .ok page_summaries =>
      match generate_document_summary O page_summaries with
      | .error e => (errorResult e, [])
      | .ok document_summary =>
        match extract_publication_year O document_summary with
        | .error e => (errorResult e, [])
        | .ok publication_year =>
          match extract_keywords O document_summary with
          | .error e => (errorResult e, [])
          | .ok keywords =>
            let all_docs :=
              split_documents (create_final_documents
                (split_into_sections normalized_pages file_name) file_name
                publication_year keywords) ++
                [summaryRecord document_summary file_name publication_year
                  keywords]
            match O.uploadO all_docs with
            | .error e => (errorResult e, [all_docs])
            | .ok document_ids =>
              (⟨"success",
                "Successfully processed ".toList ++ squote :: file_name ++
                  [squote],
                some ⟨(splitOnSep pageBreakMarker
                    (clean_markdown_text file_content)).length,
                  (split_into_sections normalized_pages file_name).length,
                  all_docs.length - 1, document_ids.length, publication_year,
                  keywords⟩⟩,
                [all_docs])

/-- `UploadService.process_markdown_file` (upload_service.py lines
206-293): reject when the source already exists, otherwise run the
pipeline. -/
def process_markdown_file (O : IngestOracles)
    (file_content file_name : List Char) :
    ProcessResult × List (List FinalDoc) :=
  if source_exists O.probe then
    (⟨"error", alreadyExistsMessage file_name, none⟩, [])
  else ingest_pipeline O file_content file_name

/-- Oracles whose probe reports the source as already present. -/
def existingOracles : IngestOracles :=
  ⟨.ok [()], fun _ => .ok [], fun _ => .ok [], fun _ => .ok [],
    fun _ => .ok [], fun _ => .ok [], fun _ => .ok []⟩

/-- Oracles whose normalization call raises. -/
def failingOracles : IngestOracles :=
  ⟨.ok [], fun _ => .error "norm failed".toList, fun _ => .ok [],
    fun _ => .ok [], fun _ => .ok [], fun _ => .ok [], fun _ => .ok []⟩

/-- Oracles whose existence probe itself raises. -/
def errorProbeOracles : IngestOracles :=
  ⟨.error "probe down".toList, fun _ => .ok [], fun _ => .ok [],
    fun _ => .ok [], fun _ => .ok [], fun _ => .ok [], fun _ => .ok []⟩

end UploadService

-- ===== END OF DEFINITIONS =====

namespace RAGService

theorem insertDesc_perm (e : Entry) (l : List Entry) :
    List.Perm (insertDesc e l) (e :: l) := by
  induction l with
  | nil => exact List.Perm.refl _
  | cons x xs ih =>
    by_cases h : x.score ≤ e.score
    · simp only [insertDesc, if_pos h]
      exact List.Perm.refl _
    · simp only [insertDesc, if_neg h]
      exact (ih.cons x).trans (List.Perm.swap e x xs)

theorem pySortDesc_perm (l : List Entry) : List.Perm (pySortDesc l) l := by
  induction l with
  | nil => exact List.Perm.refl _
  | cons x xs ih =>
    exact (insertDesc_perm x (pySortDesc xs)).trans (ih.cons x)

theorem insertDesc_pairwise (e : Entry) (l : List Entry)
    (h : l.Pairwise (fun a b => b.score ≤ a.score)) :
    (insertDesc e l).Pairwise (fun a b => b.score ≤ a.score) := by
  induction l with
  | nil => simp [insertDesc]
  | cons x xs ih =>
    rcases List.pairwise_cons.mp h with ⟨hx, hxs⟩
    by_cases hxe : x.score ≤ e.score
    · simp only [insertDesc, if_pos hxe]
      refine List.pairwise_cons.mpr ⟨?_, h⟩
      intro y hy
      rcases List.mem_cons.mp hy with rfl | hy
      · exact hxe
      · exact le_trans (hx y hy) hxe
    · simp only [insertDesc, if_neg hxe]
      refine List.pairwise_cons.mpr ⟨?_, ih hxs⟩
      intro y hy
      rcases List.mem_cons.mp ((insertDesc_perm e xs).mem_iff.mp hy) with rfl | hy
      · exact le_of_lt (lt_of_not_le hxe)
      · exact hx y hy

theorem pySortDesc_pairwise (l : List Entry) :
    (pySortDesc l).Pairwise (fun a b => b.score ≤ a.score) := by
  induction l with
  | nil => simp [pySortDesc]
  | cons x xs ih => exact insertDesc_pairwise x (pySortDesc xs) ih

theorem insertDesc_filter_eq (e : Entry) (l : List Entry) (v : Int) :
    (insertDesc e l).filter (fun x => x.score == v) =
      if e.score = v then e :: l.filter (fun x => x.score == v)
      else l.filter (fun x => x.score == v) := by
  induction l with
  | nil =>
    by_cases h : e.score = v <;>
      simp [insertDesc, List.filter_cons, beq_iff_eq, h]
  | cons x xs ih =>
    by_cases hxe : x.score ≤ e.score
    · rw [insertDesc, if_pos hxe]
      by_cases h : e.score = v <;> by_cases hxv : x.score = v <;>
        simp [List.filter_cons, beq_iff_eq, h, hxv]
    · have hlt : e.score < x.score := lt_of_not_le hxe
      rw [insertDesc, if_neg hxe]
      by_cases h : e.score = v
      · have hxv : ¬ (x.score = v) := by omega
        simp [List.filter_cons, beq_iff_eq, ih, h, hxv]
      · by_cases hxv : x.score = v <;>
          simp [List.filter_cons, beq_iff_eq, ih, h, hxv]

theorem pySortDesc_filter_eq (l : List Entry) (v : Int) :
    (pySortDesc l).filter (fun x => x.score == v) =
      l.filter (fun x => x.score == v) := by
  induction l with
  | nil => rfl
  | cons x xs ih =>
    simp only [pySortDesc, insertDesc_filter_eq, ih]
    by_cases h : x.score = v <;>
      simp [List.filter_cons, beq_iff_eq, h]

end RAGService


/-- Claim C1: for every judge response that parses as a JSON array of
`{filename, score}` entries, `get_filtered_documents` sorts the entries
descending by score (the sorted list is a permutation of the input, its
scores are non-increasing, and within each score value the judge's
original relative order is preserved, i.e. the sort is stable), keeps
only entries with score ≥ 50, takes at most the top 3, and returns their
filenames in that order; in particular for
`[{"filename":"a","score":90},{"filename":"b","score":40},{"filename":"c","score":100}]`
it returns `["c","a"]`. -/
theorem claim1_relevance_filter_selects :
    (∀ scored : List RAGService.Entry,
        (RAGService.pySortDesc scored).Pairwise (fun a b => b.score ≤ a.score)
        ∧ List.Perm (RAGService.pySortDesc scored) scored
        ∧ (∀ v : Int,
            (RAGService.pySortDesc scored).filter (fun x => x.score == v) =
              scored.filter (fun x => x.score == v))
        ∧ (∀ cands : List RAGService.Candidate,
            RAGService.get_filtered_documents cands (some scored) =
              ((((RAGService.pySortDesc scored).filter
                  (fun d => decide (50 ≤ d.score))).take 3).map
                RAGService.Entry.filename)))
    ∧ RAGService.get_filtered_documents []
        (some [⟨"a", 90⟩, ⟨"b", 40⟩, ⟨"c", 100⟩]) = ["c", "a"] := by
  refine ⟨fun scored => ⟨RAGService.pySortDesc_pairwise scored,
    RAGService.pySortDesc_perm scored,
    fun v => RAGService.pySortDesc_filter_eq scored v,
    fun cands => rfl⟩, by decide⟩

/-- Claim C8: for every judge response whose content fails to parse as a
JSON array of entries with `filename` and `score` keys, the filter falls
back to the `source` values of the first 3 retrieved candidates in
retrieval order, with no scoring applied; with 5 candidates that is
exactly the first 3 candidates' sources. -/
theorem claim8_judge_fallback :
    (∀ cands : List RAGService.Candidate,
        RAGService.get_filtered_documents cands none =
          (cands.take 3).map RAGService.Candidate.source)
    ∧ (∀ c1 c2 c3 c4 c5 : RAGService.Candidate,
        RAGService.get_filtered_documents [c1, c2, c3, c4, c5] none =
          [c1.source, c2.source, c3.source]) :=
  ⟨fun _ => rfl, fun _ _ _ _ _ => rfl⟩

/-- Claim C2: `RAGService.query` never raises past its own boundary: if
any fallible stage (document filtering, page retrieval, answer
generation) raises an exception `e`, the result is a well-formed
`QueryResult` whose answer is the error-describing string
`"An error occurred: " ++ e`, with empty sources and empty
filtered-documents lists. -/
theorem claim2_query_degrades
    (filterO : Except String (List String))
    (retrieveO : List String → Except String (List RAGService.PageHit))
    (generateO : List RAGService.PageHit → Except String String) :
    (∀ e, filterO = .error e →
        RAGService.query filterO retrieveO generateO =
          ⟨"An error occurred: " ++ e, [], []⟩)
    ∧ (∀ fd e, filterO = .ok fd → retrieveO fd = .error e →
        RAGService.query filterO retrieveO generateO =
          ⟨"An error occurred: " ++ e, [], []⟩)
    ∧ (∀ fd ph e, filterO = .ok fd → retrieveO fd = .ok ph →
        generateO ph = .error e →
        RAGService.query filterO retrieveO generateO =
          ⟨"An error occurred: " ++ e, [], []⟩) := by
  refine ⟨?_, ?_, ?_⟩
  · intro e h; simp [RAGService.query, h]
  · intro fd e h1 h2; simp [RAGService.query, h1, h2]
  · intro fd ph e h1 h2 h3; simp [RAGService.query, h1, h2, h3]

/-- Witness for C2 at a concrete erroring filter stage. -/
theorem claim2_query_degrades_witness :
    RAGService.query (.error "boom") (fun _ => .ok []) (fun _ => .ok "") =
      ⟨"An error occurred: boom", [], []⟩ :=
  (claim2_query_degrades (.error "boom") (fun _ => .ok [])
    (fun _ => .ok "")).1 "boom" rfl



namespace UploadService

theorem processLine_none (src : List Char) (n : Nat) (st : SplitState)
    (line : List Char) (h : headingCapture (pyStrip line) = none) :
    processLine src n st line = ⟨st.cur, st.buf ++ [pyStrip line], st.docs⟩ := by
  simp [processLine, h]

theorem processLine_open (src : List Char) (n : Nat) (st : SplitState)
    (line b : List Char) (h : headingCapture (pyStrip line) = some b)
    (hcur : st.cur = none) :
    processLine src n st line = ⟨some b, st.buf, st.docs⟩ := by
  simp [processLine, h, hcur]

theorem processLine_skip (src : List Char) (n : Nat) (st : SplitState)
    (line b s : List Char) (h : headingCapture (pyStrip line) = some b)
    (hcur : st.cur = some s) (hb : st.buf = []) :
    processLine src n st line = ⟨some b, st.buf, st.docs⟩ := by
  simp [processLine, h, hcur, hb]

theorem processLine_flush (src : List Char) (n : Nat) (st : SplitState)
    (line b s : List Char) (h : headingCapture (pyStrip line) = some b)
    (hcur : st.cur = some s) (hb : st.buf ≠ []) :
    processLine src n st line = ⟨some b, [], st.docs ++ [⟨src, s, n, st.buf⟩]⟩ := by
  simp [processLine, h, hcur, List.isEmpty_iff, hb]

theorem processLine_factor (src : List Char) (n : Nat) (c : Option (List Char))
    (b : List (List Char)) (ds : List SectionDoc) (line : List Char) :
    processLine src n ⟨c, b, ds⟩ line =
      ⟨(processLine src n ⟨c, b, []⟩ line).cur,
       (processLine src n ⟨c, b, []⟩ line).buf,
       ds ++ (processLine src n ⟨c, b, []⟩ line).docs⟩ := by
  cases hc : headingCapture (pyStrip line) with
  | none =>
    rw [processLine_none src n ⟨c, b, ds⟩ line hc,
      processLine_none src n ⟨c, b, []⟩ line hc]
    simp
  | some hdg =>
    cases c with
    | none =>
      rw [processLine_open src n ⟨none, b, ds⟩ line hdg hc rfl,
        processLine_open src n ⟨none, b, []⟩ line hdg hc rfl]
      simp
    | some s =>
      rcases eq_or_ne b [] with hb | hb
      · rw [processLine_skip src n ⟨some s, b, ds⟩ line hdg s hc rfl hb,
          processLine_skip src n ⟨some s, b, []⟩ line hdg s hc rfl hb]
        simp
      · rw [processLine_flush src n ⟨some s, b, ds⟩ line hdg s hc rfl hb,
          processLine_flush src n ⟨some s, b, []⟩ line hdg s hc rfl hb]
        simp

theorem foldl_processLine_factor (src : List Char) (n : Nat)
    (lines : List (List Char)) :
    ∀ (c : Option (List Char)) (b : List (List Char)) (ds : List SectionDoc),
      lines.foldl (processLine src n) ⟨c, b, ds⟩ =
        ⟨(lines.foldl (processLine src n) ⟨c, b, []⟩).cur,
         (lines.foldl (processLine src n) ⟨c, b, []⟩).buf,
         ds ++ (lines.foldl (processLine src n) ⟨c, b, []⟩).docs⟩ := by
  induction lines with
  | nil => intro c b ds; simp
  | cons l ls ih =>
    intro c b ds
    simp only [List.foldl_cons]
    rw [processLine_factor]
    rw [ih (processLine src n ⟨c, b, []⟩ l).cur
        (processLine src n ⟨c, b, []⟩ l).buf
        (ds ++ (processLine src n ⟨c, b, []⟩ l).docs)]
    conv_rhs => rw [ih (processLine src n ⟨c, b, []⟩ l).cur
        (processLine src n ⟨c, b, []⟩ l).buf
        ((processLine src n ⟨c, b, []⟩ l).docs)]
    simp [List.append_assoc]

theorem processPage_factor (src : List Char) (n : Nat) (docs : List SectionDoc)
    (p : List Char) :
    processPage src n docs p = docs ++ processPage src n [] p := by
  simp only [processPage]
  rw [foldl_processLine_factor]
  cases hc : ((splitlines p).foldl (processLine src n) ⟨none, [], []⟩).cur with
  | none => simp [hc]
  | some s =>
    rcases eq_or_ne ((splitlines p).foldl (processLine src n) ⟨none, [], []⟩).buf
        [] with hb | hb <;>
      simp [hc, hb, List.isEmpty_iff, List.append_assoc]

theorem splitGo_eq (src : List Char) (ps : List (List Char)) :
    ∀ (n : Nat) (docs : List SectionDoc),
      splitGo src n ps docs = docs ++ sectionsOfPages src n ps := by
  induction ps with
  | nil => intro n docs; simp [splitGo, sectionsOfPages]
  | cons p ps ih =>
    intro n docs
    rw [splitGo, sectionsOfPages, ih, processPage_factor]
    simp [List.append_assoc]

/-- `split_into_sections` treats every page independently: the result is
the concatenation of the per-page runs, each started from a fresh state,
so no section ever spans a page boundary. -/
theorem split_into_sections_eq (pages : List (List Char)) (src : List Char) :
    split_into_sections pages src = sectionsOfPages src 1 pages := by
  simp [split_into_sections, splitGo_eq]

theorem processLine_docs_subset (src : List Char) (n : Nat) (st : SplitState)
    (line : List Char) :
    ∀ d ∈ (processLine src n st line).docs,
      d ∈ st.docs ∨ (d.source = src ∧ d.page_number = n ∧ d.textLines ≠ []) := by
  intro d hd
  cases hc : headingCapture (pyStrip line) with
  | none =>
    rw [processLine_none src n st line hc] at hd
    exact Or.inl hd
  | some hdg =>
    cases hcur : st.cur with
    | none =>
      rw [processLine_open src n st line hdg hc hcur] at hd
      exact Or.inl hd
    | some s =>
      rcases eq_or_ne st.buf [] with hb | hb
      · rw [processLine_skip src n st line hdg s hc hcur hb] at hd
        exact Or.inl hd
      · rw [processLine_flush src n st line hdg s hc hcur hb] at hd
        rcases List.mem_append.mp hd with h1 | h1
        · exact Or.inl h1
        · simp only [List.mem_singleton] at h1
          subst h1
          exact Or.inr ⟨rfl, rfl, hb⟩

theorem foldl_processLine_docs_subset (src : List Char) (n : Nat)
    (lines : List (List Char)) :
    ∀ st : SplitState, ∀ d ∈ (lines.foldl (processLine src n) st).docs,
      d ∈ st.docs ∨ (d.source = src ∧ d.page_number = n ∧ d.textLines ≠ []) := by
  induction lines with
  | nil => intro st d hd; exact Or.inl hd
  | cons l ls ih =>
    intro st d hd
    rcases ih (processLine src n st l) d hd with h1 | h1
    · exact processLine_docs_subset src n st l d h1
    · exact Or.inr h1

theorem processPage_docs_subset (src : List Char) (n : Nat)
    (docs : List SectionDoc) (p : List Char) :
    ∀ d ∈ processPage src n docs p,
      d ∈ docs ∨ (d.source = src ∧ d.page_number = n ∧ d.textLines ≠ []) := by
  intro d hd
  have hbase := foldl_processLine_docs_subset src n (splitlines p)
    ⟨none, [], docs⟩
  revert hd
  simp only [processPage]
  cases hc : ((splitlines p).foldl (processLine src n) ⟨none, [], docs⟩).cur with
  | none => intro hd; exact hbase d hd
  | some s =>
    rcases eq_or_ne ((splitlines p).foldl (processLine src n)
        ⟨none, [], docs⟩).buf [] with hb | hb
    · simp only [hb, List.isEmpty_nil, if_true]
      intro hd; exact hbase d hd
    · have hb2 : ((splitlines p).foldl (processLine src n)
          ⟨none, [], docs⟩).buf.isEmpty = false := by
        simp [List.isEmpty_iff, hb]
      simp only [hb2, Bool.false_eq_true, if_false]
      intro hd
      rcases List.mem_append.mp hd with h1 | h1
      · exact hbase d h1
      · simp only [List.mem_singleton] at h1
        subst h1
        exact Or.inr ⟨rfl, rfl, hb⟩

theorem sectionsOfPages_inv (src : List Char) (ps : List (List Char)) :
    ∀ n : Nat, ∀ d ∈ sectionsOfPages src n ps,
      n ≤ d.page_number ∧ d.page_number < n + ps.length ∧ d.textLines ≠ [] := by
  induction ps with
  | nil => intro n d hd; simp [sectionsOfPages] at hd
  | cons p ps ih =>
    intro n d hd
    rw [sectionsOfPages] at hd
    rcases List.mem_append.mp hd with h1 | h1
    · rcases processPage_docs_subset src n [] p d h1 with h2 | h2
      · simp at h2
      · refine ⟨le_of_eq h2.2.1.symm, ?_, h2.2.2⟩
        rw [h2.2.1]
        simp only [List.length_cons]
        omega
    · rcases ih (n + 1) d h1 with ⟨ha, hb, hc⟩
      refine ⟨by omega, ?_, hc⟩
      simp only [List.length_cons]
      omega

theorem foldl_processLine_no_heading (src : List Char) (n : Nat)
    (lines : List (List Char)) :
    (∀ l ∈ lines, headingCapture (pyStrip l) = none) →
    ∀ (b : List (List Char)) (ds : List SectionDoc),
      lines.foldl (processLine src n) ⟨none, b, ds⟩ =
        ⟨none, b ++ lines.map pyStrip, ds⟩ := by
  induction lines with
  | nil => intro _ b ds; simp
  | cons l ls ih =>
    intro h b ds
    have hl : headingCapture (pyStrip l) = none := h l (by simp)
    simp only [List.foldl_cons]
    rw [processLine_none src n ⟨none, b, ds⟩ l hl]
    rw [ih (fun x hx => h x (List.mem_cons_of_mem _ hx)) (b ++ [pyStrip l]) ds]
    simp

/-- A page none of whose lines matches the heading pattern contributes no
section at all: with no heading ever opened, the buffered text is
discarded at end of page. -/
theorem split_single_page_no_heading (page src : List Char)
    (h : ∀ l ∈ splitlines page, headingCapture (pyStrip l) = none) :
    split_into_sections [page] src = [] := by
  simp only [split_into_sections, splitGo, processPage]
  rw [foldl_processLine_no_heading src 1 (splitlines page) h [] []]

end UploadService

namespace UploadService

theorem splitOnSepFuel_length (sep : List Char) :
    ∀ (fuel : Nat) (l cur : List Char),
      (splitOnSepFuel sep fuel cur l).length = countSepFuel sep fuel l + 1 := by
  intro fuel
  induction fuel with
  | zero => intro l cur; simp [splitOnSepFuel, countSepFuel]
  | succ fuel ih =>
    intro l cur
    cases l with
    | nil => simp [splitOnSepFuel, countSepFuel]
    | cons ch t =>
      by_cases h : sep.isPrefixOf (ch :: t) <;>
        simp [splitOnSepFuel, countSepFuel, h, ih]

/-- Splitting on a separator yields one more part than the number of
separator occurrences. -/
theorem splitOnSep_length (sep l : List Char) :
    (splitOnSep sep l).length = countSep sep l + 1 :=
  splitOnSepFuel_length sep l.length l []

theorem dropWhile_head_not (p : Char → Bool) :
    ∀ (l : List Char) (c : Char) (t : List Char),
      l.dropWhile p = c :: t → p c = false := by
  intro l
  induction l with
  | nil => intro c t h; simp at h
  | cons x xs ih =>
    intro c t h
    by_cases hx : p x
    · rw [List.dropWhile_cons, if_pos hx] at h
      exact ih c t h
    · rw [List.dropWhile_cons, if_neg hx] at h
      rcases List.cons.inj h with ⟨rfl, rfl⟩
      exact Bool.not_eq_true _ ▸ by simpa using hx

theorem takeWhile_append_all (p : Char → Bool) (xs ys : List Char)
    (h : ∀ x ∈ xs, p x = true) :
    (xs ++ ys).takeWhile p = xs ++ ys.takeWhile p := by
  induction xs with
  | nil => simp
  | cons x xs ih =>
    have hx : p x = true := h x (by simp)
    simp only [List.cons_append, List.takeWhile_cons, hx, if_true]
    rw [ih (fun y hy => h y (List.mem_cons_of_mem _ hy))]

theorem dropWhile_append_all (p : Char → Bool) (xs ys : List Char)
    (h : ∀ x ∈ xs, p x = true) :
    (xs ++ ys).dropWhile p = ys.dropWhile p := by
  induction xs with
  | nil => simp
  | cons x xs ih =>
    have hx : p x = true := h x (by simp)
    simp only [List.cons_append, List.dropWhile_cons, hx, if_true]
    exact ih (fun y hy => h y (List.mem_cons_of_mem _ hy))

theorem headingCapture_of_form (k : Nat) (ws : List Char) (c : Char)
    (t : List Char) (hk1 : 1 ≤ k) (hk3 : k ≤ 3) (hws : ws ≠ [])
    (hall : ∀ x ∈ ws, pyIsSpace x = true) (hc : pyIsSpace c = false) :
    headingCapture (List.replicate k '#' ++ ws ++ c :: t) = some (c :: t) := by
  obtain ⟨w, ws2, rfl⟩ := List.exists_cons_of_ne_nil hws
  have hw : pyIsSpace w = true := hall w (by simp)
  have hwne : w ≠ '#' := by
    intro he
    rw [he] at hw
    simp [pyIsSpace] at hw
  have hwnh : (w == '#') = false := by simp [hwne]
  have hrep : ∀ x ∈ List.replicate k '#', (x == '#') = true := by
    intro x hx
    simp [List.eq_of_mem_replicate hx]
  have hassoc : List.replicate k '#' ++ (w :: ws2) ++ c :: t =
      List.replicate k '#' ++ ((w :: ws2) ++ c :: t) := by
    rw [List.append_assoc]
  rw [hassoc]
  have h1 : (List.replicate k '#' ++ ((w :: ws2) ++ c :: t)).takeWhile
      (fun ch => ch == '#') = List.replicate k '#' := by
    rw [takeWhile_append_all _ _ _ hrep]
    simp [List.takeWhile_cons, hwnh]
  have h2 : (List.replicate k '#' ++ ((w :: ws2) ++ c :: t)).dropWhile
      (fun ch => ch == '#') = (w :: ws2) ++ c :: t := by
    rw [dropWhile_append_all _ _ _ hrep]
    simp [List.dropWhile_cons, hwnh]
  have h3 : ((w :: ws2) ++ c :: t).takeWhile pyIsSpace = w :: ws2 := by
    rw [takeWhile_append_all _ _ _ hall]
    simp [List.takeWhile_cons, hc]
  have h4 : ((w :: ws2) ++ c :: t).dropWhile pyIsSpace = c :: t := by
    rw [dropWhile_append_all _ _ _ hall]
    simp [List.dropWhile_cons, hc]
  simp only [headingCapture, h1, h2, h3, h4, List.length_replicate]
  rw [if_pos ⟨hk1, hk3, by simp, by simp⟩]

theorem form_of_headingCapture (l b : List Char)
    (h : headingCapture l = some b) :
    ∃ k ws c t, 1 ≤ k ∧ k ≤ 3 ∧ ws ≠ [] ∧ (∀ x ∈ ws, pyIsSpace x = true) ∧
      pyIsSpace c = false ∧ b = c :: t ∧
      l = List.replicate k '#' ++ ws ++ c :: t := by
  simp only [headingCapture] at h
  split at h
  case isFalse => exact absurd h (by simp)
  case isTrue hcond =>
    obtain ⟨hk1, hk3, hwsne, hbodyne⟩ := hcond
    have hb : (l.dropWhile (fun ch => ch == '#')).dropWhile pyIsSpace = b :=
      Option.some.inj h
    obtain ⟨c, t, hct⟩ :=
      List.exists_cons_of_ne_nil (hb ▸ hbodyne)
    refine ⟨(l.takeWhile (fun ch => ch == '#')).length,
      (l.dropWhile (fun ch => ch == '#')).takeWhile pyIsSpace, c, t,
      hk1, hk3, hwsne, ?_, ?_, ?_, ?_⟩
    · intro x hx
      exact List.mem_takeWhile_imp hx
    · exact dropWhile_head_not pyIsSpace _ c t (hb.symm ▸ hct)
    · exact hct
    · have e1 : l.takeWhile (fun ch => ch == '#') =
          List.replicate (l.takeWhile (fun ch => ch == '#')).length '#' := by
        rw [List.eq_replicate_iff]
        refine ⟨rfl, ?_⟩
        intro x hx
        have := List.mem_takeWhile_imp hx
        simpa [beq_iff_eq] using this
      rw [← e1, List.append_assoc, ← hct, ← hb,
        List.takeWhile_append_dropWhile, List.takeWhile_append_dropWhile]

end UploadService

/-- Claim C5 counterexample: splitting the single page
`"orphan text\n## H\nbody"` yields one record whose buffered text is
`["orphan text", "body"]`, not `["body"]`: the text before the first
heading is not discarded, because the code clears the buffer only inside
the flush branch, which is skipped while no section is open. -/
theorem claim5_orphan_counterexample :
    UploadService.split_into_sections ["orphan text\n## H\nbody".toList]
        "f.md".toList =
      [⟨"f.md".toList, "H".toList, 1,
        ["orphan text".toList, "body".toList]⟩]
    ∧ UploadService.joinLines ["orphan text".toList, "body".toList] ≠
        "body".toList := by
  decide

/-- Claim C5 (amended): splitting the single page
`"orphan text\n## H\nbody"` yields exactly one Section record with
section metadata `"H"` whose buffered text is
`["orphan text", "body"]` — text preceding the first heading of a page is
retained in the buffer and attached to the first section that is flushed;
it is discarded only when no heading line at all occurs on the page, in
which case the page contributes no section. -/
theorem claim5_orphan_attached :
    UploadService.split_into_sections ["orphan text\n## H\nbody".toList]
        "f.md".toList =
      [⟨"f.md".toList, "H".toList, 1,
        ["orphan text".toList, "body".toList]⟩]
    ∧ (∀ page src : List Char,
        (∀ l ∈ UploadService.splitlines page,
          UploadService.headingCapture (UploadService.pyStrip l) = none) →
        UploadService.split_into_sections [page] src = []) :=
  ⟨by decide, fun page src h =>
    UploadService.split_single_page_no_heading page src h⟩

/-- Witness for the no-heading part of C5 (amended) at a concrete page. -/
theorem claim5_orphan_attached_witness :
    (∀ l ∈ UploadService.splitlines "no heading here".toList,
      UploadService.headingCapture (UploadService.pyStrip l) = none) ∧
    UploadService.split_into_sections ["no heading here".toList]
      "f.md".toList = [] :=
  ⟨by decide, claim5_orphan_attached.2 "no heading here".toList "f.md".toList
    (by decide)⟩

/-- Claim C7 counterexample: the raw input
`"<a id='<!-- PAGE BREAK -->'></a>"` contains the page-break marker once
(N = 1), yet ingestion produces 1 page, not N + 1 = 2: anchor-tag
cleaning runs before page splitting and deletes the anchor together with
the marker inside its id. -/
theorem claim7_raw_marker_counterexample :
    UploadService.countSep UploadService.pageBreakMarker
        UploadService.anchorWrappedMarker = 1
    ∧ (UploadService.splitOnSep UploadService.pageBreakMarker
        (UploadService.clean_markdown_text
          UploadService.anchorWrappedMarker)).length = 1 := by
  decide

/-- Claim C7 (amended): for every raw input whose CLEANED text (anchor
tags removed, ends stripped) contains N page-break markers, ingestion
splits it into exactly N + 1 pages; the Section Splitter applied to those
pages yields only Sections with `page_number` in `[1, N + 1]` (an input
with no marker is one page), every produced Section's buffer of text
lines is non-empty, and no Section spans a page boundary: the result is
exactly the concatenation of the independent per-page runs. -/
theorem claim7_pages_and_sections (raw src : List Char) :
    (UploadService.splitOnSep UploadService.pageBreakMarker
        (UploadService.clean_markdown_text raw)).length =
      UploadService.countSep UploadService.pageBreakMarker
        (UploadService.clean_markdown_text raw) + 1
    ∧ (∀ d ∈ UploadService.split_into_sections
          (UploadService.splitOnSep UploadService.pageBreakMarker
            (UploadService.clean_markdown_text raw)) src,
        1 ≤ d.page_number ∧
          d.page_number ≤ (UploadService.splitOnSep
            UploadService.pageBreakMarker
            (UploadService.clean_markdown_text raw)).length ∧
          d.textLines ≠ [])
    ∧ UploadService.split_into_sections
          (UploadService.splitOnSep UploadService.pageBreakMarker
            (UploadService.clean_markdown_text raw)) src =
        UploadService.sectionsOfPages src 1
          (UploadService.splitOnSep UploadService.pageBreakMarker
            (UploadService.clean_markdown_text raw)) := by
  refine ⟨UploadService.splitOnSep_length _ _, ?_,
    UploadService.split_into_sections_eq _ _⟩
  intro d hd
  rw [UploadService.split_into_sections_eq] at hd
  obtain ⟨h1, h2, h3⟩ := UploadService.sectionsOfPages_inv src _ 1 d hd
  exact ⟨h1, by omega, h3⟩

/-- Witness for C7 (amended): a one-page input with one section. -/
theorem claim7_pages_and_sections_witness :
    ((⟨"f".toList, "H".toList, 1, [['x']]⟩ : UploadService.SectionDoc) ∈
      UploadService.split_into_sections
        (UploadService.splitOnSep UploadService.pageBreakMarker
          (UploadService.clean_markdown_text "## H\nx".toList)) "f".toList)
    ∧ (1 ≤ (⟨"f".toList, "H".toList, 1, [['x']]⟩ :
          UploadService.SectionDoc).page_number ∧
        (⟨"f".toList, "H".toList, 1, [['x']]⟩ :
          UploadService.SectionDoc).page_number ≤
          (UploadService.splitOnSep UploadService.pageBreakMarker
            (UploadService.clean_markdown_text "## H\nx".toList)).length ∧
        (⟨"f".toList, "H".toList, 1, [['x']]⟩ :
          UploadService.SectionDoc).textLines ≠ []) :=
  ⟨by decide,
    (claim7_pages_and_sections "## H\nx".toList "f".toList).2.1 _ (by decide)⟩

/-- Claim C9 counterexample: the line `"#\tH"` (hash, tab, H) opens a
section in the code — the regex `\s+` accepts a tab — with captured
heading `"H"`, but it is not of the claimed form "1-3 `#` characters,
then one space, then non-empty text". -/
theorem claim9_heading_counterexample :
    (UploadService.processLine [] 1 ⟨none, [], []⟩
        ('#' :: '\t' :: ['H'])).cur = some ['H']
    ∧ ¬ UploadService.claimHeadingForm
        (UploadService.pyStrip ('#' :: '\t' :: ['H'])) := by
  constructor
  · decide
  · intro hform
    have hstrip : UploadService.pyStrip ('#' :: '\t' :: ['H']) =
        '#' :: '\t' :: ['H'] := by decide
    rw [hstrip] at hform
    obtain ⟨k, t, hk1, hk3, ht, heq⟩ := hform
    interval_cases k
    · injection heq with h1 h2
      injection h2 with h3 h4
      exact absurd h3 (by decide)
    · injection heq with h1 h2
      injection h2 with h3 h4
      exact absurd h3 (by decide)
    · injection heq with h1 h2
      injection h2 with h3 h4
      exact absurd h3 (by decide)

/-- Claim C9 (amended): a line opens a new Section if and only if, after
whitespace-trimming, it consists of 1 to 3 leading `#` characters,
followed by at least one whitespace character (space, tab, ...), followed
by text beginning with a non-whitespace character; the stored heading is
exactly the captured group, i.e. the text after the whitespace run.
A non-matching line leaves the current section open and is appended
(stripped) to the buffer. -/
theorem claim9_heading_recognition :
    (∀ l : List Char,
        (∃ b, UploadService.headingCapture l = some b) ↔
          UploadService.headingForm l)
    ∧ (∀ (k : Nat) (ws : List Char) (c : Char) (t : List Char),
        1 ≤ k → k ≤ 3 → ws ≠ [] → (∀ x ∈ ws, UploadService.pyIsSpace x = true) →
        UploadService.pyIsSpace c = false →
        UploadService.headingCapture
          (List.replicate k '#' ++ ws ++ c :: t) = some (c :: t))
    ∧ (∀ (src : List Char) (n : Nat) (st : UploadService.SplitState)
          (rawLine b : List Char),
        UploadService.headingCapture (UploadService.pyStrip rawLine) = some b →
        (UploadService.processLine src n st rawLine).cur = some b)
    ∧ (∀ (src : List Char) (n : Nat) (st : UploadService.SplitState)
          (rawLine : List Char),
        UploadService.headingCapture (UploadService.pyStrip rawLine) = none →
        UploadService.processLine src n st rawLine =
          ⟨st.cur, st.buf ++ [UploadService.pyStrip rawLine], st.docs⟩) := by
  refine ⟨?_, ?_, ?_, ?_⟩
  · intro l
    constructor
    · rintro ⟨b, hb⟩
      obtain ⟨k, ws, c, t, h1, h2, h3, h4, h5, _, h7⟩ :=
        UploadService.form_of_headingCapture l b hb
      exact ⟨k, ws, c, t, h1, h2, h3, h4, h5, h7⟩
    · rintro ⟨k, ws, c, t, h1, h2, h3, h4, h5, rfl⟩
      exact ⟨c :: t, UploadService.headingCapture_of_form k ws c t h1 h2 h3 h4 h5⟩
  · intro k ws c t h1 h2 h3 h4 h5
    exact UploadService.headingCapture_of_form k ws c t h1 h2 h3 h4 h5
  · intro src n st rawLine b hb
    cases hcur : st.cur with
    | none => rw [UploadService.processLine_open src n st rawLine b hb hcur]
    | some s =>
      rcases eq_or_ne st.buf [] with hbuf | hbuf
      · rw [UploadService.processLine_skip src n st rawLine b s hb hcur hbuf]
      · rw [UploadService.processLine_flush src n st rawLine b s hb hcur hbuf]
  · intro src n st rawLine h
    exact UploadService.processLine_none src n st rawLine h

/-- Witness for C9 (amended) at the concrete line `"## H"`. -/
theorem claim9_heading_recognition_witness :
    UploadService.headingCapture
      (List.replicate 2 '#' ++ [' '] ++ 'H' :: []) = some ('H' :: []) :=
  claim9_heading_recognition.2.1 2 [' '] 'H' [] (by decide) (by decide)
    (by decide) (by decide) (by decide)

namespace UploadService

theorem chunkText_le (l : List Char) (h : l.length ≤ 1000) :
    chunkText l = [l] := by
  rw [chunkText]
  simp [h]

theorem chunkText_gt (l : List Char) (h : 1000 < l.length) :
    chunkText l = l.take 1000 :: chunkText (l.drop 900) := by
  rw [chunkText]
  simp [Nat.not_le.mpr h]

theorem chunkText_length_of_gt :
    ∀ (n : Nat) (l : List Char), l.length = n → 1000 < l.length →
      (chunkText l).length = (l.length - 100 + 899) / 900 := by
  intro n
  induction n using Nat.strong_induction_on with
  | _ n ih =>
    intro l hlen hgt
    rw [chunkText_gt l hgt]
    by_cases h2 : (l.drop 900).length ≤ 1000
    · rw [List.length_cons, chunkText_le _ h2]
      simp only [List.length_drop] at h2
      simp only [List.length_singleton]
      omega
    · push_neg at h2
      have hdrop : (l.drop 900).length = l.length - 900 := List.length_drop 900 l
      have hrec := ih (l.drop 900).length
        (by rw [hdrop]; omega)
        (l.drop 900) rfl h2
      rw [List.length_cons, hrec, hdrop]
      rw [hdrop] at h2
      omega

theorem chunkText_ne_nil :
    ∀ (n : Nat) (l : List Char), l.length = n → l ≠ [] →
      ∀ c ∈ chunkText l, c ≠ [] := by
  intro n
  induction n using Nat.strong_induction_on with
  | _ n ih =>
    intro l hlen hne c hc
    by_cases h : l.length ≤ 1000
    · rw [chunkText_le l h] at hc
      simp only [List.mem_singleton] at hc
      exact hc ▸ hne
    · push_neg at h
      rw [chunkText_gt l h] at hc
      rcases List.mem_cons.mp hc with rfl | hc2
      · intro habs
        have : (l.take 1000).length = 0 := by rw [habs]; rfl
        rw [List.length_take] at this
        omega
      · have hdrop : (l.drop 900).length = l.length - 900 := List.length_drop 900 l
        refine ih (l.drop 900).length (by omega) (l.drop 900) rfl ?_ c hc2
        intro habs
        have : (l.drop 900).length = 0 := by rw [habs]; rfl
        omega

theorem tailJoin_cons (c : List Char) (cs : List (List Char)) :
    tailJoin (c :: cs) = c.drop 100 ++ tailJoin cs := rfl

theorem tailJoin_chunkText :
    ∀ (n : Nat) (l : List Char), l.length = n →
      tailJoin (chunkText l) = l.drop 100 := by
  intro n
  induction n using Nat.strong_induction_on with
  | _ n ih =>
    intro l hlen
    by_cases h : l.length ≤ 1000
    · rw [chunkText_le l h, tailJoin_cons]
      simp [tailJoin]
    · push_neg at h
      rw [chunkText_gt l h, tailJoin_cons]
      have hdrop : (l.drop 900).length = l.length - 900 := List.length_drop 900 l
      rw [ih (l.drop 900).length (by omega) (l.drop 900) rfl]
      rw [List.drop_take, List.drop_drop]
      norm_num
      have e : List.drop 900 (List.drop 100 l) = List.drop 1000 l := by
        rw [List.drop_drop]
      rw [← e]
      exact List.take_append_drop 900 (List.drop 100 l)

theorem reconstruct_chunkText (l : List Char) :
    reconstruct (chunkText l) = l := by
  by_cases h : l.length ≤ 1000
  · rw [chunkText_le l h]
    simp [reconstruct, tailJoin]
  · push_neg at h
    rw [chunkText_gt l h]
    simp only [reconstruct]
    rw [tailJoin_chunkText (l.drop 900).length (l.drop 900) rfl,
      List.drop_drop]
    have h2 : (100 : Nat) + 900 = 1000 := rfl
    rw [h2]
    exact List.take_append_drop 1000 l

end UploadService

namespace UploadService

theorem chunkText_overlap :
    ∀ (n : Nat) (l : List Char), l.length = n →
      ∀ (i : Nat) (ci ci1 : List Char),
        (chunkText l)[i]? = some ci → (chunkText l)[i + 1]? = some ci1 →
        ci.length = 1000 ∧ ci.drop 900 = ci1.take 100 := by
  intro n
  induction n using Nat.strong_induction_on with
  | _ n ih =>
    intro l hlen i ci ci1 h1 h2
    by_cases hle : l.length ≤ 1000
    · rw [chunkText_le l hle] at h2
      rcases i with _ | j <;> simp at h2
    · push_neg at hle
      rw [chunkText_gt l hle] at h1 h2
      rcases i with _ | j
      · simp only [List.getElem?_cons_zero, Option.some.injEq] at h1
        simp only [List.getElem?_cons_succ] at h2
        subst h1
        constructor
        · rw [List.length_take]
          omega
        · by_cases hd : (l.drop 900).length ≤ 1000
          · rw [chunkText_le _ hd] at h2
            simp only [List.getElem?_cons_zero, Option.some.injEq] at h2
            subst h2
            rw [List.drop_take]
          · push_neg at hd
            rw [chunkText_gt _ hd] at h2
            simp only [List.getElem?_cons_zero, Option.some.injEq] at h2
            subst h2
            rw [List.drop_take, List.take_take]
            norm_num
      · simp only [List.getElem?_cons_succ] at h1 h2
        have hdrop : (l.drop 900).length = l.length - 900 := List.length_drop 900 l
        exact ih (l.drop 900).length (by omega) (l.drop 900) rfl j ci ci1 h1 h2

end UploadService

/-- Claim C6 (spec-modelled Chunker): for every Section text of length L,
the Chunker with size 1000 and overlap 100 produces exactly one chunk
equal to the whole text when L ≤ 1000 and `ceil((L-100)/900)`, i.e.
`(L - 100 + 899) / 900`, chunks when L > 1000; whenever chunk i+1 exists,
chunk i has length 1000 and its last 100 characters equal the first 100
characters of chunk i+1; no chunk of a non-empty text is empty; and no
trailing content is dropped: the chunks reassemble to the whole text. -/
theorem claim6_chunker_window (l : List Char) :
    (l.length ≤ 1000 → UploadService.chunkText l = [l])
    ∧ (1000 < l.length →
        (UploadService.chunkText l).length = (l.length - 100 + 899) / 900)
    ∧ (∀ (i : Nat) (ci ci1 : List Char),
        (UploadService.chunkText l)[i]? = some ci →
        (UploadService.chunkText l)[i + 1]? = some ci1 →
        ci.length = 1000 ∧ ci.drop 900 = ci1.take 100)
    ∧ (l ≠ [] → ∀ c ∈ UploadService.chunkText l, c ≠ [])
    ∧ UploadService.reconstruct (UploadService.chunkText l) = l :=
  ⟨UploadService.chunkText_le l,
   UploadService.chunkText_length_of_gt l.length l rfl,
   UploadService.chunkText_overlap l.length l rfl,
   UploadService.chunkText_ne_nil l.length l rfl,
   UploadService.reconstruct_chunkText l⟩

/-- Witness for C6 at a concrete 1001-character text. -/
theorem claim6_chunker_window_witness :
    1000 < (List.replicate 1001 'a').length ∧
    (UploadService.chunkText (List.replicate 1001 'a')).length =
      ((List.replicate 1001 'a').length - 100 + 899) / 900 :=
  ⟨by rw [List.length_replicate]; omega,
   (claim6_chunker_window (List.replicate 1001 'a')).2.1
     (by rw [List.length_replicate]; omega)⟩

namespace UploadService

theorem alreadyExists_decomp (file_name : List Char) :
    alreadyExistsMessage file_name =
      ("Document ".toList ++ squote :: file_name ++ [squote, ' ']) ++
        "already exists".toList ++ " in the database.".toList := by
  have key : (squote :: " already exists in the database.".toList : List Char) =
      [squote, ' '] ++ ("already exists".toList ++ " in the database.".toList) := by
    decide
  simp only [alreadyExistsMessage, List.append_assoc, List.cons_append,
    List.nil_append, key]

end UploadService

/-- Claim C3: whenever the existence probe reports the source as already
present (the probe search completed with a non-empty result), ingestion
is rejected: the result has status `"error"` with a message containing
`"already exists"`, and no upload call is made (the upload log stays
empty). -/
theorem claim3_reingest_rejected (O : UploadService.IngestOracles)
    (file_content file_name : List Char) (results : List Unit)
    (hprobe : O.probe = .ok results) (hne : results ≠ []) :
    UploadService.process_markdown_file O file_content file_name =
      (⟨"error", UploadService.alreadyExistsMessage file_name, none⟩, [])
    ∧ (∃ p q, UploadService.alreadyExistsMessage file_name =
        p ++ "already exists".toList ++ q) := by
  constructor
  · have hex : UploadService.source_exists O.probe = true := by
      rw [hprobe]
      simp [UploadService.source_exists, List.isEmpty_iff, hne]
    simp [UploadService.process_markdown_file, hex]
  · exact ⟨"Document ".toList ++ UploadService.squote :: file_name ++
      [UploadService.squote, ' '], " in the database.".toList,
      by rw [UploadService.alreadyExists_decomp]⟩

/-- Witness for C3 at a concrete present source. -/
theorem claim3_reingest_rejected_witness :
    UploadService.process_markdown_file UploadService.existingOracles
        "x".toList "f.md".toList =
      (⟨"error", UploadService.alreadyExistsMessage "f.md".toList, none⟩, [])
    ∧ (∃ p q, UploadService.alreadyExistsMessage "f.md".toList =
        p ++ "already exists".toList ++ q) :=
  claim3_reingest_rejected UploadService.existingOracles "x".toList
    "f.md".toList [()] rfl (by decide)

/-- Claim C4: ingestion is all-or-nothing.  When the existence check
passes, an exception raised by any stage before the final upload
(normalization, page summaries, document summary, year extraction,
keyword extraction) yields the `"error"` result and an empty upload log —
nothing is written to the store — because the single upload call happens
only at the end, on one batch bundling the page chunks plus the summary
record, which is exactly the batch logged when every stage succeeds. -/
theorem claim4_ingestion_all_or_nothing (O : UploadService.IngestOracles)
    (file_content file_name : List Char)
    (hprobe : UploadService.source_exists O.probe = false) :
    (∀ e, UploadService.normalize_pages O
        (UploadService.splitOnSep UploadService.pageBreakMarker
          (UploadService.clean_markdown_text file_content)) = .error e →
      UploadService.process_markdown_file O file_content file_name =
        (UploadService.errorResult e, []))
    ∧ (∀ norm e, UploadService.normalize_pages O
          (UploadService.splitOnSep UploadService.pageBreakMarker
            (UploadService.clean_markdown_text file_content)) = .ok norm →
        UploadService.generate_page_summaries O
          (UploadService.split_into_sections norm file_name) = .error e →
        UploadService.process_markdown_file O file_content file_name =
          (UploadService.errorResult e, []))
    ∧ (∀ norm sums e, UploadService.normalize_pages O
          (UploadService.splitOnSep UploadService.pageBreakMarker
            (UploadService.clean_markdown_text file_content)) = .ok norm →
        UploadService.generate_page_summaries O
          (UploadService.split_into_sections norm file_name) = .ok sums →
        UploadService.generate_document_summary O sums = .error e →
        UploadService.process_markdown_file O file_content file_name =
          (UploadService.errorResult e, []))
    ∧ (∀ norm sums dsum e, UploadService.normalize_pages O
          (UploadService.splitOnSep UploadService.pageBreakMarker
            (UploadService.clean_markdown_text file_content)) = .ok norm →
        UploadService.generate_page_summaries O
          (UploadService.split_into_sections norm file_name) = .ok sums →
        UploadService.generate_document_summary O sums = .ok dsum →
        UploadService.extract_publication_year O dsum = .error e →
        UploadService.process_markdown_file O file_content file_name =
          (UploadService.errorResult e, []))
    ∧ (∀ norm sums dsum yr e, UploadService.normalize_pages O
          (UploadService.splitOnSep UploadService.pageBreakMarker
            (UploadService.clean_markdown_text file_content)) = .ok norm →
        UploadService.generate_page_summaries O
          (UploadService.split_into_sections norm file_name) = .ok sums →
        UploadService.generate_document_summary O sums = .ok dsum →
        UploadService.extract_publication_year O dsum = .ok yr →
        UploadService.extract_keywords O dsum = .error e →
        UploadService.process_markdown_file O file_content file_name =
          (UploadService.errorResult e, []))
    ∧ (∀ norm sums dsum yr kw, UploadService.normalize_pages O
          (UploadService.splitOnSep UploadService.pageBreakMarker
            (UploadService.clean_markdown_text file_content)) = .ok norm →
        UploadService.generate_page_summaries O
          (UploadService.split_into_sections norm file_name) = .ok sums →
        UploadService.generate_document_summary O sums = .ok dsum →
        UploadService.extract_publication_year O dsum = .ok yr →
        UploadService.extract_keywords O dsum = .ok kw →
        (UploadService.process_markdown_file O file_content file_name).2 =
          [UploadService.split_documents
              (UploadService.create_final_documents
                (UploadService.split_into_sections norm file_name) file_name
                yr kw) ++
            [UploadService.summaryRecord dsum file_name yr kw]]) := by
  refine ⟨?_, ?_, ?_, ?_, ?_, ?_⟩
  · intro e h1
    simp [UploadService.process_markdown_file, hprobe,
      UploadService.ingest_pipeline, h1]
  · intro norm e h1 h2
    simp [UploadService.process_markdown_file, hprobe,
      UploadService.ingest_pipeline, h1, h2]
  · intro norm sums e h1 h2 h3
    simp [UploadService.process_markdown_file, hprobe,
      UploadService.ingest_pipeline, h1, h2, h3]
  · intro norm sums dsum e h1 h2 h3 h4
    simp [UploadService.process_markdown_file, hprobe,
      UploadService.ingest_pipeline, h1, h2, h3, h4]
  · intro norm sums dsum yr e h1 h2 h3 h4 h5
    simp [UploadService.process_markdown_file, hprobe,
      UploadService.ingest_pipeline, h1, h2, h3, h4, h5]
  · intro norm sums dsum yr kw h1 h2 h3 h4 h5
    cases hup : O.uploadO (UploadService.split_documents
        (UploadService.create_final_documents
          (UploadService.split_into_sections norm file_name) file_name yr kw) ++
        [UploadService.summaryRecord dsum file_name yr kw]) <;>
      simp [UploadService.process_markdown_file, hprobe,
        UploadService.ingest_pipeline, h1, h2, h3, h4, h5, hup]

/-- Witness for C4: a concrete run whose normalization call raises. -/
theorem claim4_ingestion_all_or_nothing_witness :
    UploadService.process_markdown_file UploadService.failingOracles
        "x".toList "f.md".toList =
      (UploadService.errorResult "norm failed".toList, []) :=
  (claim4_ingestion_all_or_nothing UploadService.failingOracles "x".toList
      "f.md".toList rfl).1 "norm failed".toList rfl

/-- Claim C10: `source_exists` fails open.  A probe search that raises
makes `source_exists` return `false`, so ingestion of that source
proceeds into the pipeline rather than being rejected; and
`source_exists` returns `true` exactly when the probe search completes
with a non-empty result. -/
theorem claim10_probe_fail_open :
    (∀ e : List Char, UploadService.source_exists (.error e) = false)
    ∧ (∀ results : List Unit,
        UploadService.source_exists (.ok results) = true ↔ results ≠ [])
    ∧ (∀ (O : UploadService.IngestOracles) (file_content file_name e : List Char),
        O.probe = .error e →
        UploadService.process_markdown_file O file_content file_name =
          UploadService.ingest_pipeline O file_content file_name) := by
  refine ⟨fun e => rfl, ?_, ?_⟩
  · intro results
    simp [UploadService.source_exists, List.isEmpty_iff]
  · intro O file_content file_name e h
    simp [UploadService.process_markdown_file, UploadService.source_exists, h]

/-- Witness for C10 at a concrete raising probe. -/
theorem claim10_probe_fail_open_witness :
    UploadService.process_markdown_file UploadService.errorProbeOracles
        "x".toList "f.md".toList =
      UploadService.ingest_pipeline UploadService.errorProbeOracles
        "x".toList "f.md".toList :=
  claim10_probe_fail_open.2.2 UploadService.errorProbeOracles "x".toList
    "f.md".toList "probe down".toList rfl
